import Mathlib

/-!
Shallow embedding of the text-to-insight pipeline of the
Public-Sentiment-Dashboard repository (src/app.py, src/data_scraper.py),
together with theorems settling the frozen claims about it.

Python strings are modelled as Lean `String`/`List Char`, restricted to the
ASCII fragment of Python's `str.lower`, `str.title` and of the regex classes
`\s`, `\w`, `[a-zA-Z]` (no document in scope exercises non-ASCII behaviour).
Timestamps are modelled as `Nat` seconds (UTC).  Floats are modelled as `ℚ`.
-/

/-! ## Character-level primitives (ASCII fragment of Python's `re` / `str`) -/

/-- Python regex `\s` (ASCII): space, tab, newline, vertical tab, form feed,
carriage return. -/
def isPyWs (c : Char) : Bool :=
  c.toNat = 32 || (9 ≤ c.toNat && c.toNat ≤ 13)

/-- Regex class `[a-zA-Z]`. -/
def isAsciiAlpha (c : Char) : Bool :=
  (97 ≤ c.toNat && c.toNat ≤ 122) || (65 ≤ c.toNat && c.toNat ≤ 90)

/-- Lowercase ASCII letter `[a-z]`. -/
def isAsciiLower (c : Char) : Bool :=
  97 ≤ c.toNat && c.toNat ≤ 122

/-- Python regex `\w` (ASCII): letters, digits, underscore. -/
def isWordChar (c : Char) : Bool :=
  isAsciiAlpha c || (48 ≤ c.toNat && c.toNat ≤ 57) || c.toNat = 95

/-! ## String-level primitives -/

/-- `pre` is a prefix of `l` (literal match). -/
def startsWithL : List Char → List Char → Bool
  | [], _ => true
  | _ :: _, [] => false
  | c :: cs, d :: ds => c = d && startsWithL cs ds

/-- `needle` occurs as a contiguous substring of `haystack`
(Python's `needle in haystack`). -/
def containsSub : List Char → List Char → Bool
  | needle, [] => startsWithL needle []
  | needle, c :: cs => startsWithL needle (c :: cs) || containsSub needle cs

/-- Python `needle in haystack` on strings. -/
def strContains (haystack needle : String) : Bool :=
  containsSub needle.data haystack.data

/-- Python `str.lower` (ASCII fragment). -/
def pyLower (s : String) : String :=
  (s.data.map Char.toLower).asString

/-- The character `n` positions in is present and is not whitespace
(the `\S` just after a matched literal). -/
def hasNonWsAt (n : Nat) (l : List Char) : Bool :=
  match l.drop n with
  | c :: _ => !isPyWs c
  | [] => false

def httpChars : List Char := ['h', 't', 't', 'p']

def wwwChars : List Char := ['w', 'w', 'w']

/-- One position matches `http\S+` or `www\S+` right here.  (In the source
pattern `http\S+|www\S+|https\S+` the third alternative is subsumed by the
first.) -/
def urlAt (l : List Char) : Bool :=
  (startsWithL httpChars l && hasNonWsAt 4 l) || (startsWithL wwwChars l && hasNonWsAt 3 l)

/-- Some position of `l` matches `http\S+` or `www\S+`. -/
def hasUrlToken : List Char → Bool
  | [] => false
  | c :: cs => urlAt (c :: cs) || hasUrlToken cs

/-- `re.sub(r'http\S+|www\S+|https\S+', '', ·)`: left-to-right scan, first
alternative wins, `\S+` greedy.  Fuel-indexed so that the recursion is
structural; `removeUrls` instantiates the fuel with the list length. -/
def removeUrlsAux : Nat → List Char → List Char
  | 0, _ => []
  | _ + 1, [] => []
  | n + 1, c :: cs =>
    if startsWithL httpChars (c :: cs) && hasNonWsAt 4 (c :: cs) then
      removeUrlsAux n (((c :: cs).drop 4).dropWhile (fun d => !isPyWs d))
    else if startsWithL wwwChars (c :: cs) && hasNonWsAt 3 (c :: cs) then
      removeUrlsAux n (((c :: cs).drop 3).dropWhile (fun d => !isPyWs d))
    else c :: removeUrlsAux n cs

def removeUrls (l : List Char) : List Char :=
  removeUrlsAux l.length l

/-- `re.sub(r'@\w+|#\w+', '', ·)`, same fuel pattern. -/
def removeMentionsAux : Nat → List Char → List Char
  | 0, _ => []
  | _ + 1, [] => []
  | n + 1, c :: cs =>
    if (c = '@' || c = '#') && (match cs with | d :: _ => isWordChar d | [] => false) then
      removeMentionsAux n (cs.dropWhile isWordChar)
    else c :: removeMentionsAux n cs

def removeMentions (l : List Char) : List Char :=
  removeMentionsAux l.length l

/-- `re.sub(r'[^a-zA-Z\s]', '', ·)`. -/
def filterAlphaWs (l : List Char) : List Char :=
  l.filter (fun c => isAsciiAlpha c || isPyWs c)

/-- `re.sub(r'\s+', ' ', ·)`: the flag records whether we are inside a
whitespace run whose first character was already emitted as `' '`. -/
def collapseWsAux : Bool → List Char → List Char
  | _, [] => []
  | inRun, c :: cs =>
    if isPyWs c then
      if inRun then collapseWsAux true cs
      else ' ' :: collapseWsAux true cs
    else c :: collapseWsAux false cs

def collapseWs (l : List Char) : List Char :=
  collapseWsAux false l

/-- Python `str.strip()` (whitespace at both ends). -/
def stripWs (l : List Char) : List Char :=
  ((l.dropWhile isPyWs).reverse.dropWhile isPyWs).reverse

/-- `SentimentAnalyzer.clean_text` (src/app.py lines 57-66), on the
non-missing branch: lowercase; strip URL-like tokens; strip
`@mention`/`#hashtag` tokens; keep only letters and whitespace; collapse
whitespace runs to one space; trim. -/
def clean_text (text : String) : String :=
  (stripWs (collapseWs (filterAlphaWs (removeMentions
    (removeUrls (text.data.map Char.toLower)))))).asString

/-- Python `str.title` (ASCII fragment): a letter starts uppercased unless the
previous character was a letter, in which case it is lowercased. -/
def pyTitleAux : Bool → List Char → List Char
  | _, [] => []
  | prevAlpha, c :: cs =>
    if isAsciiAlpha c then
      (if prevAlpha then Char.toLower c else
        (if 97 ≤ c.toNat ∧ c.toNat ≤ 122 then Char.ofNat (c.toNat - 32) else c)) ::
        pyTitleAux true cs
    else c :: pyTitleAux false cs

def pyTitle (s : String) : String :=
  (pyTitleAux false s.data).asString

/-! ## SentimentAnalyzer (src/app.py lines 47-100) -/

/-- `SentimentAnalyzer.get_sentiment` (src/app.py lines 68-81).  TextBlob's
polarity computation is an external collaborator; it enters the model as the
parameter `polarityOf` (any deterministic estimator, spec section 4.2). -/
def get_sentiment (polarityOf : String → ℚ) (text : String) : ℚ × String :=
  if text = "" then (0, "neutral")
  else
    let polarity := polarityOf text
    if polarity > 1 / 10 then (polarity, "positive")
    else if polarity < -(1 / 10) then (polarity, "negative")
    else (polarity, "neutral")

/-- `SentimentAnalyzer.policy_keywords` (src/app.py lines 49-55), in Python
dict insertion order. -/
def policy_keywords : List (String × List String) :=
  [("Digital India", ["digital india", "digitization", "e-governance", "digital payment"]),
   ("Swachh Bharat", ["swachh bharat", "clean india", "cleanliness", "toilet construction"]),
   ("Make in India", ["make in india", "manufacturing", "atmanirbhar", "self reliant"]),
   ("Jan Dhan Yojana", ["jan dhan", "bank account", "financial inclusion"]),
   ("Ayushman Bharat", ["ayushman bharat", "healthcare", "health insurance", "pmjay"])]

/-- First-match scan of a category lexicon: the body of the `for` loop of
`classify_policy`, over an arbitrary lexicon tail. -/
def classifyFrom (text_lower : String) : List (String × List String) → String
  | [] => "General"
  | (policy, keywords) :: rest =>
    if keywords.any (fun kw => strContains text_lower kw) then policy
    else classifyFrom text_lower rest

/-- `SentimentAnalyzer.classify_policy` (src/app.py lines 83-89). -/
def classify_policy (text : String) : String :=
  classifyFrom (pyLower text) policy_keywords

/-- The region list of `extract_region` (src/app.py lines 93-94). -/
def regions : List String :=
  ["mumbai", "delhi", "bangalore", "chennai", "kolkata", "hyderabad",
   "pune", "ahmedabad", "jaipur", "lucknow", "kanpur", "nagpur"]

/-- First-match scan of the gazetteer: the body of the `for` loop of
`extract_region`. -/
def extractFrom (text_lower : String) : List String → String
  | [] => "Unknown"
  | r :: rest =>
    if strContains text_lower r then pyTitle r else extractFrom text_lower rest

/-- `SentimentAnalyzer.extract_region` (src/app.py lines 91-100). -/
def extract_region (text : String) : String :=
  extractFrom (pyLower text) regions

/-! ## SocialMediaScraper (src/data_scraper.py) -/

/-- Fields of one Reddit search result used by `scrape_reddit_data`. -/
structure RedditPost where
  created_utc : Nat
  title : String
  selftext : String
  ups : Nat
  num_comments : Nat
  deriving DecidableEq, Repr

/-- Outcome of the one `requests.get` in `scrape_reddit_data`, mirroring the
`if == 200 / elif == 429 / else / except` branches. -/
inductive RedditResponse where
  | ok (posts : List RedditPost)
  | rateLimited
  | otherStatus (code : Nat)
  | exn
  deriving DecidableEq, Repr

/-- The common record shape produced by the scraper adapters. -/
structure SRecord where
  date : Nat
  text : String
  platform : String
  likes : Nat
  shares : Nat
  deriving DecidableEq, Repr

/-- `SocialMediaScraper.scrape_reddit_data` (src/data_scraper.py lines
89-128).  The second component records whether the network call
(`requests.get`) was issued: it is unconditionally the first statement of the
`try` block, so it is `true` on every path.  No rate-limit state exists for
this source: a 429 only logs and returns an empty frame. -/
def scrape_reddit_data (_subreddit _query : String) (_limit : Nat)
    (resp : RedditResponse) : List SRecord × Bool :=
  match resp with
  | .ok posts =>
    (posts.map (fun p =>
      { date := p.created_utc
        text := p.title ++ " " ++ p.selftext
        platform := "Reddit"
        likes := p.ups
        shares := p.num_comments }), true)
  | .rateLimited => ([], true)
  | .otherStatus _ => ([], true)
  | .exn => ([], true)

/-- Fields of one tweet used by `scrape_twitter_data`. -/
structure Tweet where
  created_at : Nat
  text : String
  like_count : Nat
  retweet_count : Nat
  deriving DecidableEq, Repr

/-- Outcome of the paginated search in `scrape_twitter_data`, mirroring the
`try / except TooManyRequests / except TweepyException / except Exception`
branches. -/
inductive TwitterResponse where
  | ok (tweets : List Tweet)
  | tooManyRequests
  | tweepyError
  | otherExn
  deriving DecidableEq, Repr

/-- `SocialMediaScraper.scrape_twitter_data` (src/data_scraper.py lines
41-87).  Inputs: whether `self.twitter_api` is configured (in the shipped
`__init__` it is hard-set to `None`, i.e. `false`), the process-wide
`TWITTER_LAST_RATE_LIMIT_HIT` module variable, the current `time.time()`, and
the network outcome.  Output: records, updated module variable, and whether
the network call was issued. -/
def scrape_twitter_data (twitterApi : Bool) (lastRateLimitHit : Option Nat)
    (now : Nat) (_query : String) (resp : TwitterResponse) :
    List SRecord × Option Nat × Bool :=
  if !twitterApi then ([], lastRateLimitHit, false)
  else
    match lastRateLimitHit with
    | some hit =>
      if now - hit < 900 then ([], lastRateLimitHit, false)
      else scrapeTwitterNet lastRateLimitHit now resp
    | none => scrapeTwitterNet lastRateLimitHit now resp
where
  /-- The `try` body once the cool-down gate is passed. -/
  scrapeTwitterNet (lastRateLimitHit : Option Nat) (now : Nat)
      (resp : TwitterResponse) : List SRecord × Option Nat × Bool :=
    match resp with
    | .ok tweets =>
      ((tweets.filter (fun t => t.text ≠ "")).map (fun t =>
        { date := t.created_at
          text := t.text
          platform := "Twitter"
          likes := t.like_count
          shares := t.retweet_count }), lastRateLimitHit, true)
    | .tooManyRequests => ([], some now, true)
    | .tweepyError => ([], lastRateLimitHit, true)
    | .otherExn => ([], lastRateLimitHit, true)

/-- `policy_queries` dict of `scrape_policy_data` (src/data_scraper.py lines
183-189), in insertion order. -/
def policy_queries : List (String × List String) :=
  [("Digital India", ["digital india", "digitalization india", "e-governance"]),
   ("Swachh Bharat", ["swachh bharat", "clean india", "swachh mission"]),
   ("Make in India", ["make in india", "atmanirbhar bharat", "manufacturing india"]),
   ("Jan Dhan Yojana", ["jan dhan yojana", "financial inclusion india"]),
   ("Ayushman Bharat", ["ayushman bharat", "healthcare india", "pmjay"])]

/-- `policy_queries.get(policy_name, [policy_name.lower()])`. -/
def lookupQueries (policy_name : String) : List String :=
  match policy_queries.find? (fun p => p.1 = policy_name) with
  | some p => p.2
  | none => [pyLower policy_name]

/-- `pandas.DataFrame.drop_duplicates(subset=['text'])` with the default
`keep='first'`: keep a row iff its `text` has not been seen earlier. -/
def dedupByTextAux (seen : List String) : List SRecord → List SRecord
  | [] => []
  | r :: rs =>
    if r.text ∈ seen then dedupByTextAux seen rs
    else r :: dedupByTextAux (r.text :: seen) rs

def dedupByText (l : List SRecord) : List SRecord :=
  dedupByTextAux [] l

/-- The post-fetch step of `scrape_policy_data` (src/data_scraper.py lines
214-234): keep documents dated within the lookback window
(`date >= now - days_back` days, timestamps already normalized to UTC`Nat`
seconds), then deduplicate by exact text, keeping the first occurrence. -/
def post_fetch (now days_back : Nat) (combined : List SRecord) : List SRecord :=
  dedupByText (combined.filter (fun r => now - days_back * 86400 ≤ r.date))

/-- `SocialMediaScraper.scrape_policy_data` (src/data_scraper.py lines
177-236).  The Twitter block is commented out in the source and
`scrape_youtube_comments` is never called, so the only adapter invoked is
Reddit; `oracle` supplies the network outcome for each query and the second
component is the log of `(source, query)` network calls issued.  When every
per-query frame is empty, `all_data` stays empty and the function returns the
empty record set without entering the post-fetch block. -/
def scrape_policy_data (policy_name : String) (days_back : Nat) (now : Nat)
    (oracle : String → RedditResponse) : List SRecord × List (String × String) :=
  let queries := lookupQueries policy_name
  let contributions := queries.map (fun q => (scrape_reddit_data "india" q 20 (oracle q)).1)
  let callLog := queries.map (fun q => ("Reddit", q))
  let all_data := contributions.filter (fun recs => recs ≠ [])
  if all_data = [] then ([], callLog)
  else (post_fetch now days_back all_data.flatten, callLog)

/-! ## Dashboard filtering and summary metrics (src/app.py main, lines
207-264) -/

/-- A labeled record as processed by `main` (date at day granularity for the
date-range filter, which compares `.dt.date`). -/
structure LRecord where
  date : Nat
  text : String
  platform : String
  policy : String
  region : String
  sentiment_score : ℚ
  sentiment_label : String
  deriving DecidableEq, Repr

/-- The four sidebar selectors.  `date_range = none` models the case
`len(date_range) != 2`, in which the date predicate is skipped. -/
structure FilterSelection where
  date_range : Option (Nat × Nat)
  policy : String
  region : String
  platform : String
  deriving DecidableEq, Repr

/-- The filter block of `main` (src/app.py lines 231-246): successive
narrowing of `filtered_df`, each selector skipped when it is `"All"` (the
date range when it is not a two-element pair). -/
def apply_filters (sel : FilterSelection) (df : List LRecord) : List LRecord :=
  let f1 := match sel.date_range with
    | some (lo, hi) => df.filter (fun r => lo ≤ r.date && r.date ≤ hi)
    | none => df
  let f2 := if sel.policy ≠ "All" then f1.filter (fun r => r.policy = sel.policy) else f1
  let f3 := if sel.region ≠ "All" then f2.filter (fun r => r.region = sel.region) else f2
  if sel.platform ≠ "All" then f3.filter (fun r => r.platform = sel.platform) else f3

/-- The headline metrics of `main` (src/app.py lines 253-264). -/
structure Summary where
  total_posts : Nat
  positive_pct : ℚ
  avg_sentiment : ℚ
  deriving DecidableEq, Repr

/-- The aggregate computations of `main`, meaningful only on a nonempty
subset (the percentage and mean divide by the length). -/
def computeSummary (df : List LRecord) : Summary :=
  { total_posts := df.length
    positive_pct :=
      ((df.filter (fun r => r.sentiment_label = "positive")).length : ℚ) / df.length * 100
    avg_sentiment := (df.map (fun r => r.sentiment_score)).sum / df.length }

/-- The guard of `main` (src/app.py lines 248-250): on an empty filtered
subset it signals the empty-result condition and returns without computing
any aggregate. -/
def summarize_step (df : List LRecord) : Except String Summary :=
  if df = [] then .error "No data available for selected filters"
  else .ok (computeSummary df)

/-- `main`'s filter-then-summarize sequence: `summarize_step` is applied to
the output of `apply_filters`, not called from inside it. -/
def dashboard_filter_summarize (sel : FilterSelection) (df : List LRecord) :
    Except String Summary :=
  summarize_step (apply_filters sel df)

/-- Classifies a `scrape_reddit_data` network outcome as a per-source failure
(429 rate limit, other non-200 status, or a raised exception). -/
def RedditResponse.isFailure : RedditResponse → Bool
  | .ok _ => false
  | .rateLimited => true
  | .otherStatus _ => true
  | .exn => true

/-- The category lexicon with the hyphenated keyword `"e-governance"` removed
from the `"Digital India"` entry (the other entries unchanged): the reduced
lexicon a normalized text is effectively classified against. -/
def policy_keywords_nohyphen : List (String × List String) :=
  [("Digital India", ["digital india", "digitization", "digital payment"]),
   ("Swachh Bharat", ["swachh bharat", "clean india", "cleanliness", "toilet construction"]),
   ("Make in India", ["make in india", "manufacturing", "atmanirbhar", "self reliant"]),
   ("Jan Dhan Yojana", ["jan dhan", "bank account", "financial inclusion"]),
   ("Ayushman Bharat", ["ayushman bharat", "healthcare", "health insurance", "pmjay"])]

/-! ## Character-level lemmas -/

theorem toNat_ofNat_valid (n : Nat) (h : n.isValidChar) : (Char.ofNat n).toNat = n := by
  simp [Char.ofNat, h, Char.ofNatAux, Char.toNat, UInt32.toNat, BitVec.toNat_ofNatLt]

theorem char_toNat_injective {a b : Char} (h : a.toNat = b.toNat) : a = b := by
  rw [← Char.ofNat_toNat a, ← Char.ofNat_toNat b, h]

/-- `Char.toLower` (which models Python `str.lower` on ASCII) expressed on
code points. -/
theorem toLower_toNat (c : Char) :
    (Char.toLower c).toNat =
      if 65 ≤ c.toNat ∧ c.toNat ≤ 90 then c.toNat + 32 else c.toNat := by
  by_cases h : 65 ≤ c.toNat ∧ c.toNat ≤ 90
  · have hv : (c.toNat + 32).isValidChar := by
      left
      have := h.2
      omega
    simp only [Char.toLower]
    rw [if_pos ⟨h.1, h.2⟩, toNat_ofNat_valid _ hv, if_pos h]
  · have h2 : ¬(c.toNat ≥ 65 ∧ c.toNat ≤ 90) := h
    simp only [Char.toLower]
    rw [if_neg h2, if_neg h]

theorem toLower_fix_of_not_upper {c : Char} (h : ¬(65 ≤ c.toNat ∧ c.toNat ≤ 90)) :
    Char.toLower c = c := by
  apply char_toNat_injective
  rw [toLower_toNat, if_neg h]

theorem isAsciiAlpha_toLower_isLower (c : Char) :
    isAsciiAlpha (Char.toLower c) = true → isAsciiLower (Char.toLower c) = true := by
  intro h
  have ht := toLower_toNat c
  simp only [isAsciiAlpha, isAsciiLower, Bool.or_eq_true, Bool.and_eq_true,
    decide_eq_true_eq] at h ⊢
  rcases h with h | h
  · exact h
  · exfalso
    by_cases hc : 65 ≤ c.toNat ∧ c.toNat ≤ 90
    · rw [ht, if_pos hc] at h
      omega
    · rw [ht, if_neg hc] at h
      exact hc h

theorem isPyWs_toLower (c : Char) : isPyWs (Char.toLower c) = isPyWs c := by
  have ht := toLower_toNat c
  rw [Bool.eq_iff_iff]
  simp only [isPyWs, Bool.or_eq_true, Bool.and_eq_true, decide_eq_true_eq]
  by_cases hc : 65 ≤ c.toNat ∧ c.toNat ≤ 90
  · rw [ht, if_pos hc]
    constructor <;> intro h <;> omega
  · rw [ht, if_neg hc]

/-! ## Claim C2: sentiment thresholds -/

/-- **C2.** Applied to a normalized text, the sentiment scorer returns
`(0, neutral)` on the empty input; on nonempty input it returns the computed
polarity together with a label fixed by the threshold policy alone: positive
iff polarity > 1/10, negative iff polarity < -1/10, neutral otherwise (so the
label is not the sign of the score: small nonzero polarities are neutral). -/
theorem C2_sentiment_thresholds (polarityOf : String → ℚ) (text : String) :
    (text = "" → get_sentiment polarityOf text = (0, "neutral")) ∧
    (text ≠ "" →
      (get_sentiment polarityOf text).1 = polarityOf text ∧
      ((get_sentiment polarityOf text).2 = "positive" ↔ 1 / 10 < polarityOf text) ∧
      ((get_sentiment polarityOf text).2 = "negative" ↔ polarityOf text < -(1 / 10)) ∧
      ((get_sentiment polarityOf text).2 = "neutral" ↔
        -(1 / 10) ≤ polarityOf text ∧ polarityOf text ≤ 1 / 10)) := by
  constructor
  · intro h
    simp [get_sentiment, h]
  · intro h
    by_cases h1 : 1 / 10 < polarityOf text
    · have h2 : ¬polarityOf text < -(1 / 10) := by linarith
      simp only [get_sentiment, if_neg h, if_pos h1]
      refine ⟨trivial, ?_, ?_, ?_⟩
      · simpa using h1
      · constructor
        · intro hx
          exact absurd hx (by decide)
        · intro hx
          exact absurd hx h2
      · constructor
        · intro hx
          exact absurd hx (by decide)
        · intro hx
          linarith [hx.2]
    · by_cases h2 : polarityOf text < -(1 / 10)
      · simp only [get_sentiment, if_neg h, if_neg h1, if_pos h2]
        refine ⟨trivial, ?_, ?_, ?_⟩
        · constructor
          · intro hx
            exact absurd hx (by decide)
          · intro hx
            exact absurd hx h1
        · simpa using h2
        · constructor
          · intro hx
            exact absurd hx (by decide)
          · intro hx
            linarith [hx.1]
      · simp only [get_sentiment, if_neg h, if_neg h1, if_neg h2]
        refine ⟨trivial, ?_, ?_, ?_⟩
        · constructor
          · intro hx
            exact absurd hx (by decide)
          · intro hx
            exact absurd hx h1
        · constructor
          · intro hx
            exact absurd hx (by decide)
          · intro hx
            exact absurd hx h2
        · exact ⟨fun _ => ⟨by linarith, by linarith⟩, fun _ => trivial⟩

/-! ## Claim C6: filtering is a conjunction of optional predicates -/

/-- **C6.** The dashboard filter block equals one pass of `List.filter` with
the pure conjunction of the four predicates — date within the inclusive
range, category equality, region equality, platform equality — where each
equality predicate degenerates to `true` exactly when its selector is the
sentinel `"All"` (and the date predicate when no two-element range is
selected). -/
theorem C6_filter_is_pure_conjunction (sel : FilterSelection) (df : List LRecord) :
    apply_filters sel df = df.filter (fun r =>
      (match sel.date_range with
       | some (lo, hi) => lo ≤ r.date && r.date ≤ hi
       | none => true) &&
      (sel.policy = "All" || r.policy = sel.policy) &&
      (sel.region = "All" || r.region = sel.region) &&
      (sel.platform = "All" || r.platform = sel.platform)) := by
  unfold apply_filters
  obtain ⟨dr, pol, reg, plat⟩ := sel
  by_cases hp : pol = "All" <;> by_cases hr : reg = "All" <;> by_cases hpl : plat = "All" <;>
    cases dr <;>
      simp_all [List.filter_filter] <;>
        first
        | rfl
        | (apply List.filter_congr
           intro r _
           simp [Bool.and_comm, Bool.and_assoc, Bool.and_left_comm])

/-! ## Claim C7: empty filtered subset -/

/-- **C7.** `main` summarizes only the output of the filter step (the filter
itself returns a plain record list), and on an empty filtered subset it
signals the empty-result condition instead of computing any aggregate; on a
nonempty subset the reported mean and percentage are the exact finite
quotients (characterized multiplicatively, which is only possible because no
division by zero occurs). -/
theorem C7_empty_result_signalled (sel : FilterSelection) (df : List LRecord) :
    dashboard_filter_summarize sel df = summarize_step (apply_filters sel df) ∧
    (apply_filters sel df = [] →
      dashboard_filter_summarize sel df =
        .error "No data available for selected filters") ∧
    (apply_filters sel df ≠ [] →
      ∃ s, dashboard_filter_summarize sel df = .ok s ∧
        s.total_posts = (apply_filters sel df).length ∧
        s.avg_sentiment * (apply_filters sel df).length
          = ((apply_filters sel df).map (fun r => r.sentiment_score)).sum ∧
        s.positive_pct * (apply_filters sel df).length
          = ((apply_filters sel df).filter
              (fun r => r.sentiment_label = "positive")).length * 100) := by
  refine ⟨rfl, ?_, ?_⟩
  · intro h
    simp [dashboard_filter_summarize, summarize_step, h]
  · intro h
    have hlen : (((apply_filters sel df).length : ℚ)) ≠ 0 := by
      have := List.length_pos.mpr h
      positivity
  -- run the summarize step on the nonempty subset
    refine ⟨computeSummary (apply_filters sel df), ?_, rfl, ?_, ?_⟩
    · simp [dashboard_filter_summarize, summarize_step, h]
    · unfold computeSummary
      field_simp
    · unfold computeSummary
      field_simp

/-! ## Claims C9, C4, C1: the ingestion pipeline -/

/-- Deduplication only keeps rows of the input. -/
theorem mem_dedupAux {r : SRecord} {seen : List String} {l : List SRecord}
    (h : r ∈ dedupByTextAux seen l) : r ∈ l := by
  induction l generalizing seen with
  | nil => exact h
  | cons s rs ih =>
    unfold dedupByTextAux at h
    by_cases hs : s.text ∈ seen
    · rw [if_pos hs] at h
      exact List.mem_cons_of_mem _ (ih h)
    · rw [if_neg hs] at h
      rcases List.mem_cons.mp h with h | h
      · exact h ▸ List.mem_cons_self _ _
      · exact List.mem_cons_of_mem _ (ih h)

/-- Every record built by the Reddit adapter carries platform `"Reddit"`. -/
theorem reddit_platform {r : SRecord} {sub q : String} {lim : Nat}
    {resp : RedditResponse} (h : r ∈ (scrape_reddit_data sub q lim resp).1) :
    r.platform = "Reddit" := by
  cases resp with
  | ok posts =>
    simp only [scrape_reddit_data, List.mem_map] at h
    obtain ⟨p, _, hp⟩ := h
    rw [← hp]
  | rateLimited => simp [scrape_reddit_data] at h
  | otherStatus code => simp [scrape_reddit_data] at h
  | exn => simp [scrape_reddit_data] at h

/-- The network-call log of the pipeline is one Reddit call per query. -/
theorem scrape_policy_log (policy_name : String) (days_back now : Nat)
    (oracle : String → RedditResponse) :
    (scrape_policy_data policy_name days_back now oracle).2 =
      (lookupQueries policy_name).map (fun q => ("Reddit", q)) := by
  simp only [scrape_policy_data, apply_ite Prod.snd, ite_self]

/-- **C9.** For every topic, lookback window and network behaviour, the
pipeline `scrape_policy_data` issues network calls only to the Reddit source
(the Twitter client is hard-set to `None` and the YouTube scraper is never
invoked from the pipeline), and consequently every record it returns has
platform `"Reddit"`. -/
theorem C9_pipeline_reddit_only (policy_name : String) (days_back now : Nat)
    (oracle : String → RedditResponse) :
    (∀ e ∈ (scrape_policy_data policy_name days_back now oracle).2, e.1 = "Reddit") ∧
    (∀ r ∈ (scrape_policy_data policy_name days_back now oracle).1,
      r.platform = "Reddit") := by
  constructor
  · intro e he
    rw [scrape_policy_log] at he
    obtain ⟨q, _, hq⟩ := List.mem_map.mp he
    rw [← hq]
  · intro r hr
    simp only [scrape_policy_data, apply_ite Prod.fst] at hr
    split at hr
    · simp at hr
    · have hr2 := mem_dedupAux hr
      have hr3 := (List.mem_filter.mp hr2).1
      obtain ⟨recs, hrecs, hrrecs⟩ := List.mem_flatten.mp hr3
      have hrecs2 := (List.mem_filter.mp hrecs).1
      obtain ⟨q, _, hq⟩ := List.mem_map.mp hrecs2
      exact reddit_platform (hq ▸ hrrecs)

/-- A concrete record the pipeline produces from one successful Reddit reply
(used to witness C9 at a concrete input). -/
theorem C9_witness : (⟨5, "t s", "Reddit", 1, 1⟩ : SRecord).platform = "Reddit" :=
  (C9_pipeline_reddit_only "Digital India" 7 10
      (fun _ => .ok [⟨5, "t", "s", 1, 1⟩])).2 _ (by decide)

/-- **C4.** Ingestion never fails: a per-source failure (429, other non-2xx
status, raised network error) yields an empty contribution from
`scrape_reddit_data`; a missing Twitter credential (`twitter_api = None`)
yields an empty Twitter contribution; and when every source/query pair fails
the whole pipeline returns the empty record set as a normal value. -/
theorem C4_ingestion_degrades (policy_name : String) (days_back now : Nat)
    (oracle : String → RedditResponse) (sub q : String) (lim : Nat)
    (resp : RedditResponse) :
    (resp.isFailure = true → (scrape_reddit_data sub q lim resp).1 = []) ∧
    ((∀ x, (oracle x).isFailure = true) →
      (scrape_policy_data policy_name days_back now oracle).1 = []) ∧
    (∀ st t tq tresp, (scrape_twitter_data false st t tq tresp).1 = []) := by
  refine ⟨?_, ?_, ?_⟩
  · intro h
    cases resp with
    | ok posts => simp [RedditResponse.isFailure] at h
    | rateLimited => rfl
    | otherStatus code => rfl
    | exn => rfl
  · intro h
    unfold scrape_policy_data
    simp only
    rw [if_pos]
    rw [List.filter_eq_nil_iff]
    intro recs hrecs
    obtain ⟨x, _, hx⟩ := List.mem_map.mp hrecs
    have hfail := h x
    cases hresp : oracle x with
    | ok posts => rw [hresp, RedditResponse.isFailure] at hfail; cases hfail
    | rateLimited => simp [← hx, hresp, scrape_reddit_data]
    | otherStatus code => simp [← hx, hresp, scrape_reddit_data]
    | exn => simp [← hx, hresp, scrape_reddit_data]
  · intro st t tq tresp
    cases st with
    | none => rfl
    | some hit => simp [scrape_twitter_data]

/-- C4 at a concrete input: a run in which every query hits a failure returns
the empty record set, and a single 429 Reddit reply contributes nothing. -/
theorem C4_witness :
    (scrape_reddit_data "india" "digital india" 20 .rateLimited).1 = [] ∧
    (scrape_policy_data "Digital India" 7 1000000 (fun _ => .exn)).1 = [] :=
  ⟨(C4_ingestion_degrades "Digital India" 7 1000000 (fun _ => .exn) "india"
      "digital india" 20 .rateLimited).1 rfl,
   (C4_ingestion_degrades "Digital India" 7 1000000 (fun _ => .exn) "india"
      "digital india" 20 .rateLimited).2.1 (fun _ => rfl)⟩

/-- **C1 (counterexample).** The claim fails for the Reddit source: after a
fetch that hit a 429, the very next fetch to the same source (well within 15
minutes — `scrape_reddit_data` carries no cool-down state whatsoever, the
only suspension timestamp in the code is `TWITTER_LAST_RATE_LIMIT_HIT`)
still issues the network call and, if the network now answers 200, returns a
nonempty result instead of an empty one. -/
theorem C1_counterexample :
    (scrape_reddit_data "india" "digital india" 20 .rateLimited).1 = [] ∧
    (scrape_reddit_data "india" "digital india" 20
      (.ok [⟨100, "title", "body", 3, 4⟩])).2 = true ∧
    (scrape_reddit_data "india" "digital india" 20
      (.ok [⟨100, "title", "body", 3, 4⟩])).1 ≠ [] := by
  refine ⟨rfl, rfl, ?_⟩
  decide

/-- **C1 (amended).** The 15-minute cool-down holds for the Twitter source
only: with the client configured and the process-wide hit timestamp set,
a call within 900 seconds of the hit returns empty, does not issue the
network call and leaves the timestamp unchanged; a call at or after 900
seconds issues the network call again; a 429 records the hit time in the
process-wide state (independent of the query).  The Reddit source has no
cool-down: a 429 makes that one call return empty, and every Reddit call
issues the network request. -/
theorem C1_twitter_only_cooldown (hit now : Nat) (q sub q2 : String)
    (resp : TwitterResponse) (lim : Nat) (resp2 : RedditResponse)
    (hcool : now - hit < 900) :
    scrape_twitter_data true (some hit) now q resp = ([], some hit, false) ∧
    (∀ n2 r2, 900 ≤ n2 - hit →
      (scrape_twitter_data true (some hit) n2 q r2).2.2 = true) ∧
    (scrape_twitter_data true none now q .tooManyRequests).2.1 = some now ∧
    (scrape_reddit_data sub q2 lim .rateLimited).1 = [] ∧
    (scrape_reddit_data sub q2 lim resp2).2 = true := by
  refine ⟨?_, ?_, rfl, rfl, ?_⟩
  · simp [scrape_twitter_data, hcool]
  · intro n2 r2 h2
    have hng : ¬n2 - hit < 900 := by omega
    cases r2 <;> simp [scrape_twitter_data, scrape_twitter_data.scrapeTwitterNet, hng]
  · cases resp2 <;> rfl

/-- C1 (amended) at concrete inputs: ten seconds after a hit at time 0 the
Twitter call is suppressed; a Reddit call right after a Reddit 429 still
issues its network request. -/
theorem C1_witness :
    scrape_twitter_data true (some 0) 10 "digital india" (.ok []) = ([], some 0, false) ∧
    (scrape_reddit_data "india" "x" 20 .exn).2 = true :=
  ⟨(C1_twitter_only_cooldown 0 10 "digital india" "india" "x" (.ok []) 20 .exn
      (by decide)).1,
   (C1_twitter_only_cooldown 0 10 "digital india" "india" "x" (.ok []) 20 .exn
      (by decide)).2.2.2.2⟩

/-! ## Claim C3: deduplication keeps the first occurrence -/

/-- What survives deduplication for one text value: nothing if the text was
already seen, otherwise exactly the first row bearing it. -/
theorem dedupAux_filter (seen : List String) (l : List SRecord) (t : String) :
    (dedupByTextAux seen l).filter (fun r => r.text = t) =
      if t ∈ seen then [] else (l.filter (fun r => r.text = t)).take 1 := by
  induction l generalizing seen with
  | nil =>
    simp only [dedupByTextAux, List.filter_nil, List.take_nil]
    split <;> rfl
  | cons r rs ih =>
    unfold dedupByTextAux
    by_cases hs : r.text ∈ seen
    · rw [if_pos hs, ih]
      by_cases ht : t ∈ seen
      · rw [if_pos ht, if_pos ht]
      · rw [if_neg ht, if_neg ht]
        have hrt : ¬r.text = t := fun he => ht (he ▸ hs)
        simp only [List.filter_cons, decide_eq_true_eq]
        rw [if_neg hrt]
    · rw [if_neg hs]
      by_cases hrt : r.text = t
      · have ht : t ∉ seen := fun hmem => hs (hrt ▸ hmem)
        rw [if_neg ht]
        simp only [List.filter_cons, decide_eq_true_eq, if_pos hrt]
        rw [ih]
        have : t ∈ r.text :: seen := by
          rw [hrt]
          exact List.mem_cons_self _ _
        rw [if_pos this]
        simp
      · simp only [List.filter_cons, decide_eq_true_eq, if_neg hrt]
        rw [ih]
        by_cases ht : t ∈ seen
        · rw [if_pos ht, if_pos (List.mem_cons_of_mem _ ht)]
        · rw [if_neg ht]
          have : t ∉ r.text :: seen := by
            intro hmem
            rcases List.mem_cons.mp hmem with he | he
            · exact hrt he.symm
            · exact ht he
          rw [if_neg this]

/-- **C3.** In the post-fetch step, any two ingested documents with exactly
equal text fields (timestamps and other fields free), both inside the
lookback window, are merged: the result contains exactly one record bearing
that text, namely the first in-window occurrence in concatenation order, and
any record of the result with that text is that one record. -/
theorem C3_dedup_first_occurrence (now days_back : Nat) (docs : List SRecord)
    (a b : SRecord) (ha : a ∈ docs) (hb : b ∈ docs) (htext : a.text = b.text)
    (hwa : now - days_back * 86400 ≤ a.date) (hwb : now - days_back * 86400 ≤ b.date) :
    ∃ c, (post_fetch now days_back docs).filter (fun r => r.text = a.text) = [c] ∧
      (docs.filter (fun r => now - days_back * 86400 ≤ r.date ∧ r.text = a.text)).head?
        = some c ∧
      ∀ r ∈ post_fetch now days_back docs, r.text = a.text → r = c := by
  have hfil := dedupAux_filter [] (docs.filter (fun r => now - days_back * 86400 ≤ r.date))
      a.text
  rw [if_neg (List.not_mem_nil a.text), List.filter_filter] at hfil
  have hmem : a ∈ docs.filter
      (fun r => decide (r.text = a.text) && decide (now - days_back * 86400 ≤ r.date)) := by
    rw [List.mem_filter]
    exact ⟨ha, by simp [hwa]⟩
  have hne : docs.filter
      (fun r => decide (r.text = a.text) && decide (now - days_back * 86400 ≤ r.date)) ≠ [] := by
    intro he
    rw [he] at hmem
    exact (List.not_mem_nil a) hmem
  obtain ⟨c, cs, hcons⟩ := List.exists_cons_of_ne_nil hne
  refine ⟨c, ?_, ?_, ?_⟩
  · unfold post_fetch dedupByText
    rw [hfil, hcons]
    rfl
  · have : docs.filter (fun r => now - days_back * 86400 ≤ r.date ∧ r.text = a.text)
        = docs.filter
          (fun r => decide (r.text = a.text) && decide (now - days_back * 86400 ≤ r.date)) := by
      apply List.filter_congr
      intro x _
      simp [Bool.and_comm]
    rw [this, hcons]
    rfl
  · intro r hr hrt
    have hrmem : r ∈ (post_fetch now days_back docs).filter (fun s => s.text = a.text) := by
      rw [List.mem_filter]
      exact ⟨hr, by simp [hrt]⟩
    rw [show (post_fetch now days_back docs).filter (fun s => s.text = a.text) = [c] from by
      unfold post_fetch dedupByText
      rw [hfil, hcons]
      rfl] at hrmem
    simpa using hrmem

/-- C3 at a concrete input: two same-text documents from different platforms
and dates collapse to the first. -/
theorem C3_witness :
    ∃ c, (post_fetch 10 1 [⟨8, "x", "Reddit", 0, 0⟩, ⟨9, "x", "Twitter", 1, 1⟩]).filter
        (fun r => r.text = (⟨8, "x", "Reddit", 0, 0⟩ : SRecord).text) = [c] ∧
      (([⟨8, "x", "Reddit", 0, 0⟩, ⟨9, "x", "Twitter", 1, 1⟩] : List SRecord).filter
        (fun r => 10 - 1 * 86400 ≤ r.date ∧
          r.text = (⟨8, "x", "Reddit", 0, 0⟩ : SRecord).text)).head? = some c ∧
      ∀ r ∈ post_fetch 10 1 [⟨8, "x", "Reddit", 0, 0⟩, ⟨9, "x", "Twitter", 1, 1⟩],
        r.text = (⟨8, "x", "Reddit", 0, 0⟩ : SRecord).text → r = c :=
  C3_dedup_first_occurrence 10 1 [⟨8, "x", "Reddit", 0, 0⟩, ⟨9, "x", "Twitter", 1, 1⟩]
    ⟨8, "x", "Reddit", 0, 0⟩ ⟨9, "x", "Twitter", 1, 1⟩ (by decide) (by decide)
    rfl (by decide) (by decide)

/-! ## Claim C5: first-match classification and region extraction -/

/-- First-match characterization of the category scan: either some entry is
the first (in lexicon order) whose keyword set hits the text and its name is
returned, or no entry hits and `"General"` is returned. -/
theorem classifyFrom_spec (tl : String) (L : List (String × List String)) :
    (∃ (i : Nat) (e : String × List String), L[i]? = some e ∧
        e.2.any (fun kw => strContains tl kw) = true ∧
        (∀ (j : Nat) (e2 : String × List String), j < i → L[j]? = some e2 →
          e2.2.any (fun kw => strContains tl kw) = false) ∧
        classifyFrom tl L = e.1) ∨
    ((∀ e ∈ L, e.2.any (fun kw => strContains tl kw) = false) ∧
      classifyFrom tl L = "General") := by
  induction L with
  | nil =>
    right
    exact ⟨by simp, rfl⟩
  | cons p rest ih =>
    obtain ⟨pol, kws⟩ := p
    by_cases hp : kws.any (fun kw => strContains tl kw) = true
    · left
      refine ⟨0, (pol, kws), by simp, hp, ?_, ?_⟩
      · intro j e2 hj _
        exact absurd hj (Nat.not_lt_zero j)
      · simp [classifyFrom, hp]
    · have hfalse : kws.any (fun kw => strContains tl kw) = false := by
        simpa using hp
      have hstep : classifyFrom tl ((pol, kws) :: rest) = classifyFrom tl rest := by
        simp [classifyFrom, hfalse]
      rcases ih with ⟨i, e, hie, hhit, hbefore, hres⟩ | ⟨hnone, hres⟩
      · left
        refine ⟨i + 1, e, by simpa using hie, hhit, ?_, by rw [hstep]; exact hres⟩
        intro j e2 hj hje
        cases j with
        | zero =>
          have he2 : e2 = (pol, kws) := by
            rw [List.getElem?_cons_zero] at hje
            exact (Option.some_inj.mp hje).symm
          rw [he2]
          exact hfalse
        | succ k =>
          exact hbefore k e2 (Nat.lt_of_succ_lt_succ hj) (by simpa using hje)
      · right
        refine ⟨?_, by rw [hstep]; exact hres⟩
        intro e he
        rcases List.mem_cons.mp he with he | he
        · rw [he]
          exact hfalse
        · exact hnone e he

/-- First-match characterization of the gazetteer scan: either some region is
the first hit and is returned title-cased, or none hits and `"Unknown"` is
returned. -/
theorem extractFrom_spec (tl : String) (L : List String) :
    (∃ (i : Nat) (r : String), L[i]? = some r ∧ strContains tl r = true ∧
        (∀ (j : Nat) (r2 : String), j < i → L[j]? = some r2 → strContains tl r2 = false) ∧
        extractFrom tl L = pyTitle r) ∨
    ((∀ r ∈ L, strContains tl r = false) ∧ extractFrom tl L = "Unknown") := by
  induction L with
  | nil =>
    right
    exact ⟨by simp, rfl⟩
  | cons r rest ih =>
    by_cases hr : strContains tl r = true
    · left
      refine ⟨0, r, by simp, hr, ?_, ?_⟩
      · intro j r2 hj _
        exact absurd hj (Nat.not_lt_zero j)
      · simp [extractFrom, hr]
    · have hfalse : strContains tl r = false := by
        simpa using hr
      have hstep : extractFrom tl (r :: rest) = extractFrom tl rest := by
        simp [extractFrom, hfalse]
      rcases ih with ⟨i, r0, hie, hhit, hbefore, hres⟩ | ⟨hnone, hres⟩
      · left
        refine ⟨i + 1, r0, by simpa using hie, hhit, ?_, by rw [hstep]; exact hres⟩
        intro j r2 hj hje
        cases j with
        | zero =>
          have hr2 : r2 = r := by
            rw [List.getElem?_cons_zero] at hje
            exact (Option.some_inj.mp hje).symm
          rw [hr2]
          exact hfalse
        | succ k =>
          exact hbefore k r2 (Nat.lt_of_succ_lt_succ hj) (by simpa using hje)
      · right
        refine ⟨?_, by rw [hstep]; exact hres⟩
        intro r2 hr2
        rcases List.mem_cons.mp hr2 with hr2 | hr2
        · rw [hr2]
          exact hfalse
        · exact hnone r2 hr2

/-- **C5.** For every input: the classifier scans the lexicon in its fixed
order and returns the name of the first category with a keyword occurring as
a substring of the lowercased text, else `"General"`; the region extractor
applies the same first-match substring policy to the gazetteer, returning
the matched name in title case, else `"Unknown"`.  Matching is
case-insensitive in the text (the text is lowercased, and every configured
keyword and region name is already lowercase, as the last two conjuncts
record); both functions are total Lean functions, so each yields exactly one
deterministic result and can never error. -/
theorem C5_classify_and_extract_first_match (text : String) :
    ((∃ (i : Nat) (e : String × List String), policy_keywords[i]? = some e ∧
        e.2.any (fun kw => strContains (pyLower text) kw) = true ∧
        (∀ (j : Nat) (e2 : String × List String), j < i → policy_keywords[j]? = some e2 →
          e2.2.any (fun kw => strContains (pyLower text) kw) = false) ∧
        classify_policy text = e.1) ∨
      ((∀ e ∈ policy_keywords,
          e.2.any (fun kw => strContains (pyLower text) kw) = false) ∧
        classify_policy text = "General")) ∧
    ((∃ (i : Nat) (r : String), regions[i]? = some r ∧ strContains (pyLower text) r = true ∧
        (∀ (j : Nat) (r2 : String), j < i → regions[j]? = some r2 →
          strContains (pyLower text) r2 = false) ∧
        extract_region text = pyTitle r) ∨
      ((∀ r ∈ regions, strContains (pyLower text) r = false) ∧
        extract_region text = "Unknown")) ∧
    (∀ e ∈ policy_keywords, ∀ kw ∈ e.2, pyLower kw = kw) ∧
    (∀ r ∈ regions, pyLower r = r) :=
  ⟨classifyFrom_spec (pyLower text) policy_keywords,
   extractFrom_spec (pyLower text) regions,
   by decide, by decide⟩

/-! ## Character-content invariants of the normalizer (for C10 and C8) -/

theorem mem_removeUrlsAux {c : Char} : ∀ (n : Nat) (l : List Char),
    c ∈ removeUrlsAux n l → c ∈ l := by
  intro n
  induction n with
  | zero =>
    intro l h
    simp [removeUrlsAux] at h
  | succ m ih =>
    intro l h
    cases l with
    | nil => simpa [removeUrlsAux] using h
    | cons d ds =>
      unfold removeUrlsAux at h
      split at h
      · have h2 := ih _ h
        exact List.mem_of_mem_drop (List.Sublist.mem h2 (List.dropWhile_sublist _))
      · split at h
        · have h2 := ih _ h
          exact List.mem_of_mem_drop (List.Sublist.mem h2 (List.dropWhile_sublist _))
        · rcases List.mem_cons.mp h with rfl | h2
          · exact List.mem_cons_self _ _
          · exact List.mem_cons_of_mem _ (ih _ h2)

theorem mem_removeMentionsAux {c : Char} : ∀ (n : Nat) (l : List Char),
    c ∈ removeMentionsAux n l → c ∈ l := by
  intro n
  induction n with
  | zero =>
    intro l h
    simp [removeMentionsAux] at h
  | succ m ih =>
    intro l h
    cases l with
    | nil => simpa [removeMentionsAux] using h
    | cons d ds =>
      unfold removeMentionsAux at h
      split at h
      · have h2 := ih _ h
        exact List.mem_cons_of_mem _ (List.Sublist.mem h2 (List.dropWhile_sublist _))
      · rcases List.mem_cons.mp h with rfl | h2
        · exact List.mem_cons_self _ _
        · exact List.mem_cons_of_mem _ (ih _ h2)

/-- A character of the collapsed list is a non-whitespace character of the
input or the single space the collapse emits. -/
theorem mem_collapseWsAux {c : Char} (b : Bool) (l : List Char)
    (h : c ∈ collapseWsAux b l) : (c ∈ l ∧ isPyWs c = false) ∨ c = ' ' := by
  induction l generalizing b with
  | nil => simp [collapseWsAux] at h
  | cons d ds ih =>
    unfold collapseWsAux at h
    split at h
    · split at h
      · rcases ih _ h with ⟨h1, h2⟩ | h3
        · exact Or.inl ⟨List.mem_cons_of_mem _ h1, h2⟩
        · exact Or.inr h3
      · rcases List.mem_cons.mp h with rfl | h2
        · exact Or.inr rfl
        · rcases ih _ h2 with ⟨h1, h3⟩ | h3
          · exact Or.inl ⟨List.mem_cons_of_mem _ h1, h3⟩
          · exact Or.inr h3
    · rcases List.mem_cons.mp h with rfl | h2
      · rename_i hws
        exact Or.inl ⟨List.mem_cons_self _ _, by simpa using hws⟩
      · rcases ih _ h2 with ⟨h1, h3⟩ | h3
        · exact Or.inl ⟨List.mem_cons_of_mem _ h1, h3⟩
        · exact Or.inr h3

theorem mem_stripWs {c : Char} {l : List Char} (h : c ∈ stripWs l) : c ∈ l := by
  unfold stripWs at h
  rw [List.mem_reverse] at h
  have h2 := List.Sublist.mem h (List.dropWhile_sublist _)
  rw [List.mem_reverse] at h2
  exact List.Sublist.mem h2 (List.dropWhile_sublist _)

/-- Every character of a normalized text is a lowercase ASCII letter or a
single space. -/
theorem clean_text_chars (t : String) :
    ∀ c ∈ (clean_text t).data, isAsciiLower c = true ∨ c = ' ' := by
  intro c hc
  have hc2 := mem_stripWs (l := collapseWs (filterAlphaWs (removeMentions
    (removeUrls (t.data.map Char.toLower))))) hc
  rcases mem_collapseWsAux false _ hc2 with ⟨hc3, hws⟩ | hsp
  · have hkeep := (List.mem_filter.mp hc3).2
    have hc4 := (List.mem_filter.mp hc3).1
    have halpha : isAsciiAlpha c = true := by
      rcases Bool.or_eq_true_iff.mp hkeep with h | h
      · exact h
      · rw [h] at hws
        cases hws
    have hc5 := mem_removeMentionsAux _ _ hc4
    have hc6 := mem_removeUrlsAux _ _ hc5
    obtain ⟨d, _, hd⟩ := List.mem_map.mp hc6
    left
    rw [← hd] at halpha ⊢
    exact isAsciiAlpha_toLower_isLower d halpha
  · exact Or.inr hsp

theorem toLower_eq_self_of_good {c : Char} (h : isAsciiLower c = true ∨ c = ' ') :
    Char.toLower c = c := by
  apply toLower_fix_of_not_upper
  rcases h with h | h
  · simp only [isAsciiLower, Bool.and_eq_true, decide_eq_true_eq] at h
    omega
  · rw [h]
    decide

/-- Lowercasing fixes a list of lowercase-or-space characters. -/
theorem map_toLower_fix : ∀ (l : List Char),
    (∀ c ∈ l, isAsciiLower c = true ∨ c = ' ') → l.map Char.toLower = l := by
  intro l h
  induction l with
  | nil => rfl
  | cons c cs ih =>
    rw [List.map_cons, toLower_eq_self_of_good (h c (List.mem_cons_self _ _)),
      ih (fun d hd => h d (List.mem_cons_of_mem _ hd))]

/-- Lowercasing fixes a normalized text. -/
theorem pyLower_eq_self {s : String}
    (h : ∀ c ∈ s.data, isAsciiLower c = true ∨ c = ' ') : pyLower s = s := by
  unfold pyLower
  rw [map_toLower_fix s.data h]
  cases s
  rfl

theorem startsWithL_mem {n : List Char} : ∀ {l : List Char},
    startsWithL n l = true → ∀ c ∈ n, c ∈ l := by
  induction n with
  | nil =>
    intro l _ c hc
    simp at hc
  | cons a as ih =>
    intro l h c hc
    cases l with
    | nil => simp [startsWithL] at h
    | cons b bs =>
      simp only [startsWithL, Bool.and_eq_true, decide_eq_true_eq] at h
      rcases List.mem_cons.mp hc with rfl | hc2
      · rw [h.1]
        exact List.mem_cons_self _ _
      · exact List.mem_cons_of_mem _ (ih h.2 c hc2)

theorem containsSub_mem {n : List Char} : ∀ {l : List Char},
    containsSub n l = true → ∀ c ∈ n, c ∈ l := by
  intro l
  induction l with
  | nil =>
    intro h c hc
    cases n with
    | nil => simp at hc
    | cons a as => simp [containsSub, startsWithL] at h
  | cons b bs ih =>
    intro h c hc
    simp only [containsSub, Bool.or_eq_true] at h
    rcases h with h | h
    · exact startsWithL_mem h c hc
    · exact List.mem_cons_of_mem _ (ih h c hc)

/-- Dropping the unreachable hyphenated keyword does not change any
classification of a hyphen-free text. -/
theorem classify_drop_egov (s : String)
    (hh : strContains s "e-governance" = false) :
    classifyFrom s policy_keywords = classifyFrom s policy_keywords_nohyphen := by
  unfold policy_keywords policy_keywords_nohyphen
  simp only [classifyFrom, List.any_cons, List.any_nil, hh, Bool.or_false, Bool.false_or]

/-! ## Claim C10: the hyphenated keyword is dead -/

/-- **C10.** Normalized text contains only lowercase letters and spaces, so
the `"Digital India"` keyword `"e-governance"` (whose hyphen normalization
deletes) can never occur as a substring of a normalized text; consequently
classification of a normalized text proceeds exactly as with the lexicon
whose `"Digital India"` entry keeps only its other keywords, falling through
to `"General"` when none of those match. -/
theorem C10_egovernance_never_matches (t : String) :
    (∀ c ∈ (clean_text t).data, isAsciiLower c = true ∨ c = ' ') ∧
    strContains (clean_text t) "e-governance" = false ∧
    classify_policy (clean_text t) =
      classifyFrom (clean_text t) policy_keywords_nohyphen := by
  have hchars := clean_text_chars t
  have hnh : strContains (clean_text t) "e-governance" = false := by
    by_contra hcon
    have htrue : strContains (clean_text t) "e-governance" = true := by
      simpa using hcon
    have hdash : '-' ∈ (clean_text t).data :=
      containsSub_mem htrue '-' (by decide)
    rcases hchars '-' hdash with h | h
    · simp [isAsciiLower] at h
    · exact absurd h (by decide)
  refine ⟨hchars, hnh, ?_⟩
  have hfix : pyLower (clean_text t) = clean_text t := pyLower_eq_self hchars
  show classifyFrom (pyLower (clean_text t)) policy_keywords = _
  rw [hfix]
  exact classify_drop_egov _ hnh

/-! ## Claim C8: idempotence of normalization -/

/-- Without a URL-shaped token the URL pass copies its input. -/
theorem removeUrlsAux_id : ∀ (n : Nat) (l : List Char), l.length ≤ n →
    hasUrlToken l = false → removeUrlsAux n l = l := by
  intro n
  induction n with
  | zero =>
    intro l hl _
    cases l with
    | nil => rfl
    | cons c cs => simp at hl
  | succ m ih =>
    intro l hl hu
    cases l with
    | nil => rfl
    | cons c cs =>
      simp only [hasUrlToken, urlAt, Bool.or_eq_false_iff] at hu
      unfold removeUrlsAux
      rw [if_neg (by simp [hu.1.1]), if_neg (by simp [hu.1.2])]
      rw [ih cs (by simpa using Nat.le_of_succ_le_succ hl)]
      exact hu.2

/-- Without `@`/`#` characters the mention pass copies its input. -/
theorem removeMentionsAux_id : ∀ (n : Nat) (l : List Char), l.length ≤ n →
    (∀ c ∈ l, c ≠ '@' ∧ c ≠ '#') → removeMentionsAux n l = l := by
  intro n
  induction n with
  | zero =>
    intro l hl _
    cases l with
    | nil => rfl
    | cons c cs => simp at hl
  | succ m ih =>
    intro l hl hm
    cases l with
    | nil => rfl
    | cons c cs =>
      have hc := hm c (List.mem_cons_self _ _)
      unfold removeMentionsAux
      rw [if_neg (by simp [hc.1, hc.2])]
      rw [ih cs (by simpa using Nat.le_of_succ_le_succ hl)
        (fun d hd => hm d (List.mem_cons_of_mem _ hd))]

/-- The head of the collapse in skip-state is never whitespace. -/
theorem collapse_head_nonws : ∀ (l : List Char) (c : Char),
    (collapseWsAux true l).head? = some c → isPyWs c = false := by
  intro l
  induction l with
  | nil =>
    intro c h
    simp [collapseWsAux] at h
  | cons d ds ih =>
    intro c h
    unfold collapseWsAux at h
    split at h
    · rw [if_pos rfl] at h
      exact ih c h
    · rw [List.head?_cons] at h
      rename_i hws
      rw [← Option.some_inj.mp h]
      simpa using hws

/-- The collapse output never has two adjacent whitespace characters. -/
theorem collapse_chain : ∀ (l : List Char) (b : Bool),
    List.Chain' (fun a b2 => ¬(isPyWs a = true ∧ isPyWs b2 = true))
      (collapseWsAux b l) := by
  intro l
  induction l with
  | nil =>
    intro b
    simp [collapseWsAux]
  | cons d ds ih =>
    intro b
    unfold collapseWsAux
    split
    · split
      · exact ih true
      · rw [List.chain'_cons']
        refine ⟨?_, ih true⟩
        intro y hy hcontra
        rw [collapse_head_nonws ds y hy] at hcontra
        cases hcontra.2
    · rw [List.chain'_cons']
      refine ⟨?_, ih false⟩
      rename_i hws
      intro y _ hcontra
      rw [hcontra.1] at hws
      exact hws rfl

/-- The collapse copies a list with no adjacent whitespace whose whitespace
is already plain spaces; in skip-state the same holds when the head is not
whitespace. -/
theorem collapseWsAux_id : ∀ (l : List Char),
    List.Chain' (fun a b2 => ¬(isPyWs a = true ∧ isPyWs b2 = true)) l →
    (∀ c ∈ l, isPyWs c = true → c = ' ') →
    (collapseWsAux false l = l ∧
      ((∀ c, l.head? = some c → isPyWs c = false) → collapseWsAux true l = l)) := by
  intro l
  induction l with
  | nil => exact fun _ _ => ⟨rfl, fun _ => rfl⟩
  | cons d ds ih =>
    intro hch hsp
    have hch2 := (List.chain'_cons'.mp hch).2
    have hR := (List.chain'_cons'.mp hch).1
    have ih2 := ih hch2 (fun c hc hw => hsp c (List.mem_cons_of_mem _ hc) hw)
    constructor
    · by_cases hd : isPyWs d = true
      · have hd' : d = ' ' := hsp d (List.mem_cons_self _ _) hd
        unfold collapseWsAux
        rw [if_pos hd, if_neg (by simp)]
        have htail : collapseWsAux true ds = ds := by
          apply ih2.2
          intro c hc
          by_contra hcw
          exact (hR c hc) ⟨hd, by simpa using hcw⟩
        rw [htail, hd']
      · unfold collapseWsAux
        rw [if_neg hd, ih2.1]
    · intro hhead
      have hd : isPyWs d = false := hhead d rfl
      unfold collapseWsAux
      rw [if_neg (by simp [hd]), ih2.1]

/-- The strip is an infix of its input. -/
theorem stripWs_within (l : List Char) : stripWs l <:+: l := by
  unfold stripWs
  apply List.infix_iff_prefix_suffix.mpr
  refine ⟨l.dropWhile isPyWs, ?_, List.dropWhile_suffix _⟩
  have h := List.dropWhile_suffix (l := (l.dropWhile isPyWs).reverse) isPyWs
  have h2 := List.reverse_prefix.mpr h
  rwa [List.reverse_reverse] at h2

/-- The strip copies a list whose two ends are not whitespace. -/
theorem stripWs_eq_self {l : List Char}
    (h1 : ∀ c, l.head? = some c → isPyWs c = false)
    (h2 : ∀ c, l.getLast? = some c → isPyWs c = false) :
    stripWs l = l := by
  have ha : l.dropWhile isPyWs = l := by
    cases l with
    | nil => rfl
    | cons c cs =>
      have hc := h1 c rfl
      simp [List.dropWhile_cons, hc]
  have hb : l.reverse.dropWhile isPyWs = l.reverse := by
    cases hr : l.reverse with
    | nil => rfl
    | cons c cs =>
      have hlast : l.getLast? = some c := by
        rw [← List.head?_reverse, hr]
        rfl
      have hc := h2 c hlast
      rw [List.dropWhile_cons, hc]
      simp
  unfold stripWs
  rw [ha, hb, List.reverse_reverse]

/-- The first character surviving the strip is not whitespace. -/
theorem stripWs_head (l : List Char) (c : Char)
    (h : (stripWs l).head? = some c) : isPyWs c = false := by
  unfold stripWs at h
  rw [List.head?_reverse] at h
  have hBne : (l.dropWhile isPyWs).reverse.dropWhile isPyWs ≠ [] := by
    intro he
    rw [he] at h
    cases h
  obtain ⟨t, ht⟩ := List.dropWhile_suffix (l := (l.dropWhile isPyWs).reverse) isPyWs
  have hlast : ((l.dropWhile isPyWs).reverse).getLast? = some c := by
    rw [← ht, List.getLast?_append, h]
    rfl
  rw [List.getLast?_reverse] at hlast
  have hmatch := List.head?_dropWhile_not isPyWs l
  rw [hlast] at hmatch
  exact hmatch

/-- The last character surviving the strip is not whitespace. -/
theorem stripWs_getLast (l : List Char) (c : Char)
    (h : (stripWs l).getLast? = some c) : isPyWs c = false := by
  unfold stripWs at h
  rw [List.getLast?_reverse] at h
  have hmatch := List.head?_dropWhile_not isPyWs (l.dropWhile isPyWs).reverse
  rw [h] at hmatch
  exact hmatch

/-- A lowercase letter is not whitespace. -/
theorem isAsciiLower_not_ws {c : Char} (h : isAsciiLower c = true) :
    isPyWs c = false := by
  simp only [isAsciiLower, Bool.and_eq_true, decide_eq_true_eq] at h
  simp only [isPyWs, Bool.or_eq_false_iff, Bool.and_eq_false_iff]
  constructor
  · simp only [decide_eq_false_iff_not]
    omega
  · right
    simp only [decide_eq_false_iff_not]
    omega

theorem asString_data (s : String) : s.data.asString = s := by
  cases s
  rfl

/-- **C8 (counterexample).** Normalization is not idempotent: `"ht?tpx"`
normalizes to `"httpx"` (the punctuation pass deletes the `?` after the URL
pass has already run), and a second normalization deletes `"httpx"` entirely
as a freshly formed URL-shaped token. -/
theorem C8_counterexample :
    clean_text (clean_text "ht?tpx") ≠ clean_text "ht?tpx" := by decide

/-- **C8 (amended).** Normalization is idempotent on every input whose
normalized form contains no URL-shaped token, i.e. no occurrence of `"http"`
or `"www"` followed directly by a non-space character (the only way a second
pass can differ, since the normalized form already consists of lowercase
letters and single interior spaces with trimmed ends). -/
theorem C8_normalize_idempotent_amended (t : String)
    (hurl : hasUrlToken (clean_text t).data = false) :
    clean_text (clean_text t) = clean_text t := by
  have hchars := clean_text_chars t
  have hlower : (clean_text t).data.map Char.toLower = (clean_text t).data :=
    map_toLower_fix _ hchars
  have hru : removeUrls (clean_text t).data = (clean_text t).data :=
    removeUrlsAux_id _ _ le_rfl hurl
  have hrm : removeMentions (clean_text t).data = (clean_text t).data := by
    apply removeMentionsAux_id _ _ le_rfl
    intro c hc
    rcases hchars c hc with h | h
    · refine ⟨fun he => ?_, fun he => ?_⟩
      · rw [he] at h
        exact absurd h (by decide)
      · rw [he] at h
        exact absurd h (by decide)
    · rw [h]
      exact ⟨by decide, by decide⟩
  have hfil : filterAlphaWs (clean_text t).data = (clean_text t).data := by
    rw [filterAlphaWs, List.filter_eq_self]
    intro c hc
    rcases hchars c hc with h | h
    · rw [Bool.or_eq_true_iff]
      left
      simp only [isAsciiAlpha, isAsciiLower, Bool.and_eq_true, Bool.or_eq_true_iff,
        decide_eq_true_eq] at h ⊢
      exact Or.inl h
    · rw [h]
      decide
  have hcol : collapseWs (clean_text t).data = (clean_text t).data := by
    have hchain : List.Chain' (fun a b2 => ¬(isPyWs a = true ∧ isPyWs b2 = true))
        (clean_text t).data := by
      have h1 := collapse_chain (filterAlphaWs (removeMentions
        (removeUrls (t.data.map Char.toLower)))) false
      exact List.Chain'.infix h1 (stripWs_within _)
    have hsp : ∀ c ∈ (clean_text t).data, isPyWs c = true → c = ' ' := by
      intro c hc hw
      rcases hchars c hc with h | h
      · rw [isAsciiLower_not_ws h] at hw
        cases hw
      · exact h
    exact (collapseWsAux_id _ hchain hsp).1
  have hstr : stripWs (clean_text t).data = (clean_text t).data := by
    apply stripWs_eq_self
    · intro c hc
      exact stripWs_head (collapseWs (filterAlphaWs (removeMentions
        (removeUrls (t.data.map Char.toLower))))) c hc
    · intro c hc
      exact stripWs_getLast (collapseWs (filterAlphaWs (removeMentions
        (removeUrls (t.data.map Char.toLower))))) c hc
  show (stripWs (collapseWs (filterAlphaWs (removeMentions
      (removeUrls ((clean_text t).data.map Char.toLower)))))).asString = clean_text t
  rw [hlower, hru, hrm, hfil, hcol, hstr, asString_data]

/-- C8 (amended) at a concrete input: a messy but URL-free text normalizes
to a fixed point. -/
theorem C8_witness :
    clean_text (clean_text "  Hello,   World! @user 123 ") =
      clean_text "  Hello,   World! @user 123 " :=
  C8_normalize_idempotent_amended "  Hello,   World! @user 123 " (by decide)
